import Mathlib

/-!
Shallow embedding of `src/tri_state_CA.py` (a tri-state elementary cellular
automaton simulator) and proofs about it.

Python conventions mirrored here:
  * Python exceptions are modelled by the `PyError` type; `ValueError` and
    `TypeError` carry their message strings, which is how the distinct error
    kinds of the design (`InvalidRule`, `InvalidConfiguration`,
    `InvalidStepCount`) are told apart.
  * Python list indexing `xs[i]` with a possibly negative index is modelled by
    `pyGet` (a negative index `i` addresses element `len + i`; out-of-range
    indices give `none`, the embedding of `IndexError`).
  * Cell values and rule numbers are Python ints, modelled as `Int`.
  * Fallible functions return `Except PyError`.
-/

/-- Embedding of the Python exceptions this module can raise.  `ValueError`
and `TypeError` keep their message so that the three error kinds of the
design, which the source distinguishes only by message, stay distinguishable. -/
inductive PyError where
  | valueError (msg : String)
  | typeError (msg : String)
  | keyError
  | indexError
deriving DecidableEq, Repr

/-- The `ValueError` raised by `TriStateCA.__init__` (lines 160-161) when a
cell of the initial condition is outside {0,1,2}; the design calls this error
kind `InvalidConfiguration`.  The message reproduces the source literal,
including its missing space. -/
def invalidConfigurationError : PyError :=
  PyError.valueError "initial condition must be a list of 0s, 1sand 2s"

/-- The `ValueError` raised by `lookup_table` (lines 92-93) when the rule
number is out of range; the design calls this error kind `InvalidRule`. -/
def invalidRuleError : PyError :=
  PyError.valueError "rule_number must be an int between 0 and 19682,inclusive"

/-- The `ValueError` raised by `TriStateCA.evolve` (lines 181, 187) on a bad
step count; the design calls this error kind `InvalidStepCount`. -/
def invalidStepCountError : PyError :=
  PyError.valueError "time_steps must be a non-negative integer"

/-- Python values that can be passed for `time_steps`: an int or a str.
(`evolve` has no type annotation, so a caller may pass a non-int.) -/
inductive PyVal where
  | pint (n : Int)
  | pstr (s : String)
deriving DecidableEq, Repr

/-- Python `x < 0`.  Comparing a `str` with an int raises `TypeError`
(message abbreviated from CPython's wording, which the embedding does not
depend on). -/
def pyLt0 : PyVal → Except PyError Bool
  | PyVal.pint n => Except.ok (decide (n < 0))
  | PyVal.pstr _ => Except.error (PyError.typeError "comparison not supported between str and int")

/-- Python `int(x)`: the identity on ints; on a str, parse an integer literal
or raise `ValueError` (`String.toInt?` approximates CPython's literal
parsing, which is all the proofs need). -/
def pyToInt : PyVal → Except PyError Int
  | PyVal.pint n => Except.ok n
  | PyVal.pstr s =>
      match s.toInt? with
      | some n => Except.ok n
      | none => Except.error (PyError.valueError ("invalid literal for int: " ++ s))

/-- Python list indexing `xs[i]`: a negative `i` addresses `xs[len + i]`;
`none` stands for `IndexError`. -/
def pyGet (xs : List Int) (i : Int) : Option Int :=
  let j : Int := if i < 0 then (xs.length : Int) + i else i
  if j < 0 then none else xs.get? j.toNat

/-- Embedding of the digit-extraction loop of `rule_in_base`
(`src/tri_state_CA.py` lines 54-61): repeatedly divide by `base`, collecting
remainders most-significant first; the final quotient becomes the leading
digit.  The loop maintains `dividend = quotient` at each test, so it is the
recursion below.  The `2 ≤ base` guard is the termination condition of the
source loop itself (for `base < 2` the Python loop never terminates or
divides by zero); the only call site uses `base = 3`. -/
def rule_in_base_digits (base : Nat) (dividend : Nat) : List Nat :=
  if h : 2 ≤ base ∧ base ≤ dividend then
    rule_in_base_digits base (dividend / base) ++ [dividend % base]
  else
    [dividend]
termination_by dividend
decreasing_by
  exact Nat.div_lt_self (Nat.lt_of_lt_of_le (by omega) h.2) (by omega)

/-- Embedding of `rule_in_base` (`src/tri_state_CA.py` lines 25-70): the
base-`base` digits of `rule_number`, left-padded with zeros to `key_number`
digits.  Python's `[0] * n` is empty for negative `n`, exactly as `Nat`
subtraction makes `List.replicate (key_number - len) 0` empty.  The source's
`base < 0` validation cannot fire for a `Nat` base and is omitted. -/
def rule_in_base (rule_number base key_number : Nat) : List Nat :=
  let ds := rule_in_base_digits base rule_number
  List.replicate (key_number - ds.length) 0 ++ ds

/-- The canonical neighborhood list of `lookup_table`
(`src/tri_state_CA.py` lines 95-96). -/
def neighborhoods : List (Int × Int) :=
  [(0,0), (0,1), (0,2), (1,0), (1,1), (1,2), (2,0), (2,1), (2,2)]

/-- Embedding of `lookup_table` (`src/tri_state_CA.py` lines 73-102): validate
the rule number, then zip the canonical neighborhoods with the padded base-3
digit list.  The Python dict built by `dict(zip(...))` is modelled as the
association list of the zipped pairs (the 9 keys are distinct, so lookup
agrees with the dict). -/
def lookup_table (rule_number : Int) : Except PyError (List ((Int × Int) × Int)) :=
  if rule_number < 0 ∨ rule_number > 19682 then
    Except.error invalidRuleError
  else
    Except.ok (List.zip neighborhoods
      ((rule_in_base rule_number.toNat 3 (neighborhoods.length)).map Int.ofNat))

/-- Alias for `lookup_table`, needed because the engine's field of the same
name shadows the module-level function inside the `TriStateCA` namespace
(Python has no such clash: one is `lookup_table`, the other
`self.lookup_table`). -/
def buildLookupTable : Int → Except PyError (List ((Int × Int) × Int)) :=
  lookup_table

/-- Embedding of the `TriStateCA` instance attributes
(`src/tri_state_CA.py` lines 163-167), by value.  The source field
`_length` is called `caLength` here (a leading underscore is not a good Lean
field name); reference identity of the stored lists is modelled separately by
`initStores`. -/
structure TriStateCA where
  lookup_table : List ((Int × Int) × Int)
  initial : List Int
  spacetime : List (List Int)
  current_configuration : List Int
  caLength : Nat
deriving DecidableEq, Repr

/-- Embedding of `TriStateCA.__init__` (`src/tri_state_CA.py` lines 158-167):
reject any cell outside {0,1,2} (the source loop raises on the first bad
cell, so it fails exactly when some cell is bad), then build the lookup
table (propagating its error), then store the fields.  `initial_condition`
and its `.copy()` are equal as values; aliasing is modelled by `initStores`. -/
def TriStateCA.init (rule_number : Int) (initial_condition : List Int) :
    Except PyError TriStateCA :=
  if initial_condition.all (fun i => i == 0 || i == 1 || i == 2) then
    match buildLookupTable rule_number with
    | Except.error e => Except.error e
    | Except.ok t =>
        Except.ok { lookup_table := t
                    initial := initial_condition
                    spacetime := [initial_condition]
                    current_configuration := initial_condition
                    caLength := initial_condition.length }
  else
    Except.error invalidConfigurationError

/-- The references an engine holds after construction, when Python lists are
modelled as heap cells.  Used to settle how `__init__` stores its argument. -/
structure EngineRefs where
  initialRef : Nat
  spacetimeRefs : List Nat
  currentRef : Nat
deriving DecidableEq, Repr

/-- Reference-level embedding of the stores in `TriStateCA.__init__`
(`src/tri_state_CA.py` lines 164-167).  The heap is a list of list objects
and `r` is the caller's reference to `initial_condition`.
`self.initial = initial_condition` stores the reference `r` itself;
`self.spacetime = [initial_condition]` builds a fresh outer list whose single
element is again the reference `r`; `self.current_configuration =
initial_condition.copy()` allocates a fresh cell holding a copy of the
list's value. -/
def initStores (heap : List (List Int)) (r : Nat) :
    List (List Int) × EngineRefs :=
  (heap ++ [heap.getD r []],
   { initialRef := r
     spacetimeRefs := [r]
     currentRef := heap.length })

/-- Embedding of one cell of the inner loop of `TriStateCA.evolve`
(`src/tri_state_CA.py` lines 193-196): form the neighborhood
`(configuration[i-1], configuration[i])` — for `i = 0` the Python index `-1`
addresses the last element — and look it up in the table (a missing key is
Python's `KeyError`, a bad index `IndexError`). -/
def cellAt (t : List ((Int × Int) × Int)) (cfg : List Int) (i : Nat) :
    Except PyError Int :=
  match pyGet cfg ((i : Int) - 1) with
  | none => Except.error PyError.indexError
  | some l =>
      match pyGet cfg (i : Int) with
      | none => Except.error PyError.indexError
      | some s =>
          match List.lookup (l, s) t with
          | some v => Except.ok v
          | none => Except.error PyError.keyError

/-- The inner loop of `TriStateCA.evolve` over a list of spatial indices,
appending each new cell in order and propagating the first error. -/
def stepCells (t : List ((Int × Int) × Int)) (cfg : List Int) :
    List Nat → Except PyError (List Int)
  | [] => Except.ok []
  | i :: rest =>
      match cellAt t cfg i with
      | Except.error e => Except.error e
      | Except.ok v =>
          match stepCells t cfg rest with
          | Except.error e => Except.error e
          | Except.ok vs => Except.ok (v :: vs)

/-- One synchronous update step (`src/tri_state_CA.py` lines 190-196): the
new configuration is built for every `i in range(self._length)` — the loop
bound is the engine's stored `_length`, passed here as `L` — from the old
configuration only. -/
def stepConfig (t : List ((Int × Int) × Int)) (L : Nat) (cfg : List Int) :
    Except PyError (List Int) :=
  stepCells t cfg (List.range L)

/-- The `for _ in range(time_steps)` loop of `TriStateCA.evolve`
(`src/tri_state_CA.py` lines 189-199): each iteration replaces the current
configuration and appends it to the spacetime history.  A raised error stops
the loop but keeps the mutations already performed, as in Python. -/
def evolveLoop (t : List ((Int × Int) × Int)) (L : Nat) :
    Nat → List Int → List (List Int) →
    (List Int × List (List Int)) × Option PyError
  | 0, cfg, hist => ((cfg, hist), none)
  | n + 1, cfg, hist =>
      match stepConfig t L cfg with
      | Except.error e => ((cfg, hist), some e)
      | Except.ok ncfg => evolveLoop t L n ncfg (hist ++ [ncfg])

/-- Embedding of `TriStateCA.evolve` (`src/tri_state_CA.py` lines 169-199).
Order matters and is kept exactly: first `time_steps < 0` is evaluated (a
`str` argument makes this raise `TypeError`, which nothing catches); then
`int(time_steps)` inside a `try` that catches only `ValueError` and re-raises
the step-count error; then the evolution loop runs.  The state is returned
alongside the error because a mid-loop error keeps prior mutations. -/
def TriStateCA.evolve (s : TriStateCA) (time_steps : PyVal) :
    TriStateCA × Option PyError :=
  match pyLt0 time_steps with
  | Except.error e => (s, some e)
  | Except.ok true => (s, some invalidStepCountError)
  | Except.ok false =>
      match pyToInt time_steps with
      | Except.error (PyError.valueError _) => (s, some invalidStepCountError)
      | Except.error e => (s, some e)
      | Except.ok n =>
          let r := evolveLoop s.lookup_table s.caLength n.toNat
                     s.current_configuration s.spacetime
          ({ s with current_configuration := r.1.1, spacetime := r.1.2 }, r.2)

/-- The engine states reachable through the public interface: a successful
construction, followed by any sequence of evolve calls that raised no
error. -/
inductive Reachable : TriStateCA → Prop where
  | init (rule_number : Int) (initial_condition : List Int) (s : TriStateCA) :
      TriStateCA.init rule_number initial_condition = Except.ok s → Reachable s
  | evolve (s : TriStateCA) (v : PyVal) :
      Reachable s → (s.evolve v).2 = none → Reachable (s.evolve v).1

/-- A cell value is one of the three automaton states. -/
def validCell (v : Int) : Prop := v = 0 ∨ v = 1 ∨ v = 2

instance (v : Int) : Decidable (validCell v) := by
  unfold validCell; infer_instance

/-- A configuration of the expected spatial length whose cells are all valid. -/
def validCfg (L : Nat) (c : List Int) : Prop :=
  c.length = L ∧ ∀ v ∈ c, validCell v

/-- A transition table that is total on the 9 valid neighborhoods and only
produces valid cell values. -/
def validTable (t : List ((Int × Int) × Int)) : Prop :=
  ∀ l s : Int, validCell l → validCell s →
    ∃ v, List.lookup (l, s) t = some v ∧ validCell v

/-- The internal invariant of an engine: a total, valid transition table,
and a current configuration and history rows all of the construction-time
length with valid cells. -/
def EngineInv (s : TriStateCA) : Prop :=
  validTable s.lookup_table ∧ validCfg s.caLength s.current_configuration ∧
    ∀ c ∈ s.spacetime, validCfg s.caLength c

/-- A small concrete engine (rule 0, one cell) used to instantiate theorems
with hypotheses at a concrete input. -/
def demoEngine : TriStateCA :=
  { lookup_table := neighborhoods.map (fun nb => (nb, 0))
    initial := [1]
    spacetime := [[1]]
    current_configuration := [1]
    caLength := 1 }

/-- The recursion of `rule_in_base_digits` at base 3, with the guard
simplified. -/
lemma rule_in_base_digits_three (n : Nat) :
    rule_in_base_digits 3 n =
      if 3 ≤ n then rule_in_base_digits 3 (n / 3) ++ [n % 3] else [n] := by
  rw [rule_in_base_digits]
  by_cases h : 3 ≤ n
  · rw [dif_pos ⟨by norm_num, h⟩, if_pos h]
  · rw [dif_neg (by omega), if_neg h]

/-- What the digit loop plus left padding computes: for `n < 3 ^ k` the
`i`-th entry of `rule_in_base n 3 k` is the `i`-th base-3 digit of `n`,
most significant first, i.e. `n / 3 ^ (k - 1 - i) % 3`. -/
lemma rule_in_base_spec (k : Nat) : ∀ n : Nat, 1 ≤ k → n < 3 ^ k →
    rule_in_base n 3 k = (List.range k).map (fun i => n / 3 ^ (k - 1 - i) % 3) := by
  induction k with
  | zero => intro n h _; omega
  | succ k ih =>
    intro n _ hn
    rw [List.range_succ, List.map_append]
    by_cases hsmall : n < 3
    · have hds : rule_in_base_digits 3 n = [n] := by
        rw [rule_in_base_digits_three, if_neg (by omega)]
      have hzero : (List.range k).map (fun i => n / 3 ^ (k + 1 - 1 - i) % 3) =
          List.replicate k 0 := by
        apply List.eq_replicate_iff.2
        refine ⟨by simp, ?_⟩
        intro b hb
        simp only [List.mem_map, List.mem_range] at hb
        obtain ⟨i, hi, rfl⟩ := hb
        have hlt : n < 3 ^ (k + 1 - 1 - i) := by
          have h3 : (3:Nat) = 3 ^ 1 := (pow_one 3).symm
          have : (3:Nat) ^ 1 ≤ 3 ^ (k + 1 - 1 - i) :=
            Nat.pow_le_pow_right (by norm_num) (by omega)
          omega
        rw [Nat.div_eq_of_lt hlt, Nat.zero_mod]
      have hlast : n / 3 ^ (k + 1 - 1 - k) % 3 = n := by
        have : k + 1 - 1 - k = 0 := by omega
        rw [this, pow_zero, Nat.div_one, Nat.mod_eq_of_lt hsmall]
      simp only [rule_in_base, hds, List.length_singleton, List.map_cons,
        List.map_nil, hlast, hzero]
      have : k + 1 - 1 = k := by omega
      rw [this]
    · have hk1 : 1 ≤ k := by
        rcases Nat.eq_zero_or_pos k with hk | hk
        · subst hk; norm_num at hn; omega
        · exact hk
      have hdiv : n / 3 < 3 ^ k := by
        rw [Nat.div_lt_iff_lt_mul (by norm_num)]
        calc n < 3 ^ (k + 1) := hn
        _ = 3 ^ k * 3 := pow_succ 3 k
      have hds : rule_in_base_digits 3 n =
          rule_in_base_digits 3 (n / 3) ++ [n % 3] := by
        rw [rule_in_base_digits_three, if_pos (by omega)]
      have hih := ih (n / 3) hk1 hdiv
      have hsplit : rule_in_base n 3 (k + 1) = rule_in_base (n / 3) 3 k ++ [n % 3] := by
        simp only [rule_in_base, hds, List.length_append, List.length_singleton]
        rw [← List.append_assoc]
        have hlen : k + 1 - ((rule_in_base_digits 3 (n / 3)).length + 1) =
            k - (rule_in_base_digits 3 (n / 3)).length := by omega
        rw [hlen]
      rw [hsplit, hih]
      congr 1
      · apply List.map_congr_left
        intro i hi
        simp only [List.mem_range] at hi
        have hpow : (3:Nat) ^ (k + 1 - 1 - i) = 3 * 3 ^ (k - 1 - i) := by
          have h1 : k + 1 - 1 - i = (k - 1 - i) + 1 := by omega
          rw [h1, pow_succ, Nat.mul_comm]
        rw [hpow, ← Nat.div_div_eq_div_mul]
      · have : k + 1 - 1 - k = 0 := by omega
        simp [this]

/-- `rule_in_base` at the call site of `lookup_table`: nine base-3 digits,
most significant first. -/
lemma rule_in_base_nine (m : Nat) (hm : m < 3 ^ 9) :
    rule_in_base m 3 9 = (List.range 9).map (fun i => m / 3 ^ (8 - i) % 3) := by
  have h := rule_in_base_spec 9 m (by norm_num) hm
  simpa using h

/-- A valid rule number makes `lookup_table` succeed, pairing the canonical
neighborhoods with the nine digits. -/
lemma lookup_table_ok (r : Int) (h0 : 0 ≤ r) (h1 : r ≤ 19682) :
    lookup_table r = Except.ok (List.zip neighborhoods
      (((List.range 9).map (fun i => r.toNat / 3 ^ (8 - i) % 3)).map Int.ofNat)) := by
  have hm : r.toNat < 3 ^ 9 := by norm_num; omega
  unfold lookup_table
  rw [if_neg (by omega)]
  rw [show neighborhoods.length = 9 from rfl, rule_in_base_nine r.toNat hm]

/-- Entry-level description of the table built for a valid rule number:
entry `i` pairs the `i`-th canonical neighborhood with the `i`-th base-3
digit of the rule number. -/
lemma lookup_table_entry (r : Int) (h0 : 0 ≤ r) (h1 : r ≤ 19682) (i : Nat) (hi : i < 9)
    (t : List ((Int × Int) × Int)) (ht : lookup_table r = Except.ok t) :
    t.get? i = some (neighborhoods.getD i (0, 0),
      Int.ofNat (r.toNat / 3 ^ (8 - i) % 3)) := by
  rw [lookup_table_ok r h0 h1] at ht
  cases ht
  rw [List.get?_zip_eq_some]
  constructor
  · have hn : i < neighborhoods.length := by simpa [neighborhoods] using hi
    rw [List.get?_eq_get hn]
    simp [List.getD_eq_getElem _ _ hn, List.get_eq_getElem,
      List.getElem?_eq_getElem hn]
  · have hlen : i < (((List.range 9).map
        (fun j => r.toNat / 3 ^ (8 - j) % 3)).map Int.ofNat).length := by simpa using hi
    rw [List.get?_eq_get hlen]
    congr 1
    simp [List.get_eq_getElem]

/-- The table built for a valid rule number has one entry per neighborhood. -/
lemma lookup_table_length (r : Int) (h0 : 0 ≤ r) (h1 : r ≤ 19682)
    (t : List ((Int × Int) × Int)) (ht : lookup_table r = Except.ok t) :
    t.length = 9 := by
  rw [lookup_table_ok r h0 h1] at ht
  cases ht
  simp [neighborhoods]

/-- Every valid (left, self) pair is one of the nine canonical
neighborhoods. -/
lemma mem_neighborhoods (l s : Int) (hl : validCell l) (hs : validCell s) :
    (l, s) ∈ neighborhoods := by
  rcases hl with rfl | rfl | rfl <;> rcases hs with rfl | rfl | rfl <;>
    simp [neighborhoods]

/-- Association-list lookup over a zip succeeds for any present key when
there are at least as many values as keys, and the value found comes from
the value list. -/
lemma lookup_zip_exists {α β : Type} [BEq α] [LawfulBEq α]
    (ks : List α) (k : α) (hk : k ∈ ks) :
    ∀ vs : List β, ks.length ≤ vs.length →
      ∃ v, List.lookup k (ks.zip vs) = some v ∧ v ∈ vs := by
  induction ks with
  | nil => cases hk
  | cons k0 ks ih =>
    intro vs hlen
    cases vs with
    | nil => simp at hlen
    | cons v0 vs =>
      by_cases heq : k = k0
      · subst heq
        exact ⟨v0, by simp [List.lookup], by simp⟩
      · have hk' : k ∈ ks := by
          rcases List.mem_cons.1 hk with h | h
          · exact absurd h heq
          · exact h
        obtain ⟨v, hv, hvm⟩ := ih hk' vs (by simpa using hlen)
        refine ⟨v, ?_, by simp [hvm]⟩
        have hbeq : (k == k0) = false := by simpa using heq
        simp only [List.zip_cons_cons, List.lookup, hbeq]
        exact hv

/-- The table built for a valid rule number is total on valid neighborhoods
and only produces valid cell values. -/
lemma lookup_table_valid (r : Int) (h0 : 0 ≤ r) (h1 : r ≤ 19682)
    (t : List ((Int × Int) × Int)) (ht : lookup_table r = Except.ok t) :
    validTable t := by
  rw [lookup_table_ok r h0 h1] at ht
  cases ht
  intro l s hl hs
  have hk : (l, s) ∈ neighborhoods := mem_neighborhoods l s hl hs
  have hlen : neighborhoods.length ≤ (((List.range 9).map
      (fun j => r.toNat / 3 ^ (8 - j) % 3)).map Int.ofNat).length := by
    simp [neighborhoods]
  obtain ⟨v, hv, hvm⟩ := lookup_zip_exists neighborhoods (l, s) hk _ hlen
  refine ⟨v, hv, ?_⟩
  simp only [List.mem_map, List.mem_range] at hvm
  obtain ⟨_, ⟨i, _, rfl⟩, rfl⟩ := hvm
  have h3 : r.toNat / 3 ^ (8 - i) % 3 = 0 ∨ r.toNat / 3 ^ (8 - i) % 3 = 1 ∨
      r.toNat / 3 ^ (8 - i) % 3 = 2 := by omega
  unfold validCell
  rcases h3 with h3 | h3 | h3 <;> rw [h3] <;> simp

/-- Python indexing with a non-negative index is plain indexing. -/
lemma pyGet_of_nonneg (xs : List Int) (i : Int) (h : 0 ≤ i) :
    pyGet xs i = xs.get? i.toNat := by
  simp only [pyGet]
  rw [if_neg (show ¬ i < 0 by omega)]
  rw [if_neg (show ¬ i < 0 by omega)]

/-- Python indexing at `-1` addresses the last element. -/
lemma pyGet_neg_one (xs : List Int) (h : 1 ≤ xs.length) :
    pyGet xs (-1) = xs.get? (xs.length - 1) := by
  simp only [pyGet]
  rw [if_pos (show (-1:Int) < 0 by omega)]
  rw [if_neg (show ¬ ((xs.length : Int) + -1) < 0 by omega)]
  congr 1
  omega

/-- A value produced by Python indexing is an element of the list. -/
lemma pyGet_mem (xs : List Int) (i : Int) (x : Int) (h : pyGet xs i = some x) :
    x ∈ xs := by
  simp only [pyGet] at h
  by_cases h1 : (if i < 0 then (xs.length : Int) + i else i) < 0
  · rw [if_pos h1] at h; cases h
  · rw [if_neg h1] at h; exact List.get?_mem h

/-- In-range indexing is `some` of the defaulted read. -/
lemma get?_eq_some_getD (xs : List Int) (i : Nat) (hi : i < xs.length) :
    xs.get? i = some (xs.getD i 0) := by
  rw [List.get?_eq_get hi, List.getD_eq_getElem _ _ hi, List.get_eq_getElem]

/-- An in-range defaulted read is an element of the list. -/
lemma getD_mem (xs : List Int) (i : Nat) (hi : i < xs.length) :
    xs.getD i 0 ∈ xs := by
  rw [List.getD_eq_getElem _ _ hi]
  exact List.getElem_mem hi

/-- `-1 mod L = L - 1` for integer (floor) modulus and positive `L`: the
wrap-around of the periodic boundary. -/
lemma neg_one_emod (L : Nat) (h : 1 ≤ L) :
    (-1 : Int) % (L : Int) = (L : Int) - 1 := by
  have h1 : ((-1 : Int) + (L : Int) * 1) % (L : Int) = (-1 : Int) % (L : Int) :=
    Int.add_mul_emod_self_left (-1) (L : Int) 1
  rw [← h1]
  have h2 : (-1 : Int) + (L : Int) * 1 = (L : Int) - 1 := by ring
  rw [h2]
  exact Int.emod_eq_of_lt (by omega) (by omega)

/-- The left neighbor read `configuration[i - 1]` of the evolve loop equals
the cell at spatial index `(i - 1) mod L`: Python's negative indexing
realizes the periodic boundary. -/
lemma pyGet_pred (cfg : List Int) (i : Nat) (hi : i < cfg.length) :
    pyGet cfg ((i : Int) - 1) =
      some (cfg.getD (((i : Int) - 1) % (cfg.length : Int)).toNat 0) := by
  have hL : 1 ≤ cfg.length := by omega
  cases i with
  | zero =>
    have h0 : ((0 : Nat) : Int) - 1 = -1 := by norm_num
    rw [h0, pyGet_neg_one cfg hL, neg_one_emod cfg.length hL]
    rw [get?_eq_some_getD cfg (cfg.length - 1) (by omega)]
    congr 2
    omega
  | succ j =>
    have h0 : ((j + 1 : Nat) : Int) - 1 = (j : Int) := by push_cast; ring
    rw [h0, pyGet_of_nonneg cfg (j : Int) (by omega)]
    have hj : j < cfg.length := by omega
    have hmod : ((j : Int)) % (cfg.length : Int) = (j : Int) :=
      Int.emod_eq_of_lt (by omega) (by omega)
    rw [hmod, Int.toNat_ofNat, get?_eq_some_getD cfg j hj]

/-- What one cell of the evolve loop computes, for an in-range index: the
table lookup at the neighborhood `(configuration[(i-1) mod L],
configuration[i])`. -/
lemma cellAt_ok_iff (t : List ((Int × Int) × Int)) (cfg : List Int) (i : Nat)
    (hi : i < cfg.length) (v : Int) :
    cellAt t cfg i = Except.ok v ↔
      List.lookup (cfg.getD (((i : Int) - 1) % (cfg.length : Int)).toNat 0,
        cfg.getD i 0) t = some v := by
  have hself : pyGet cfg (i : Int) = some (cfg.getD i 0) := by
    rw [pyGet_of_nonneg cfg (i : Int) (by omega), Int.toNat_ofNat,
      get?_eq_some_getD cfg i hi]
  simp only [cellAt, pyGet_pred cfg i hi, hself]
  cases hcase : List.lookup (cfg.getD (((i : Int) - 1) % (cfg.length : Int)).toNat 0,
      cfg.getD i 0) t with
  | none => simp
  | some w => simp

/-- A successful inner loop produces one new cell per index. -/
lemma stepCells_ok_length (t : List ((Int × Int) × Int)) (cfg : List Int) :
    ∀ (idxs : List Nat) (out : List Int),
      stepCells t cfg idxs = Except.ok out → out.length = idxs.length := by
  intro idxs
  induction idxs with
  | nil => intro out h; cases h; rfl
  | cons i rest ih =>
    intro out h
    simp only [stepCells] at h
    cases hcell : cellAt t cfg i with
    | error e => rw [hcell] at h; cases h
    | ok v =>
      rw [hcell] at h
      cases hrest : stepCells t cfg rest with
      | error e => rw [hrest] at h; cases h
      | ok vs =>
        rw [hrest] at h
        cases h
        simp [ih vs hrest]

/-- Position `j` of a successful inner loop's output is the cell computed
for the `j`-th index. -/
lemma stepCells_ok_get (t : List ((Int × Int) × Int)) (cfg : List Int) :
    ∀ (idxs : List Nat) (out : List Int),
      stepCells t cfg idxs = Except.ok out →
      ∀ j, j < idxs.length → cellAt t cfg (idxs.getD j 0) = Except.ok (out.getD j 0) := by
  intro idxs
  induction idxs with
  | nil => intro out _ j hj; simp at hj
  | cons i rest ih =>
    intro out h j hj
    simp only [stepCells] at h
    cases hcell : cellAt t cfg i with
    | error e => rw [hcell] at h; cases h
    | ok v =>
      rw [hcell] at h
      cases hrest : stepCells t cfg rest with
      | error e => rw [hrest] at h; cases h
      | ok vs =>
        rw [hrest] at h
        cases h
        cases j with
        | zero => simpa using hcell
        | succ j' =>
          have hj' : j' < rest.length := by simpa using hj
          simpa using ih vs hrest j' hj'

/-- Every cell of a successful inner loop's output was computed by `cellAt`
at one of the indices. -/
lemma stepCells_ok_mem (t : List ((Int × Int) × Int)) (cfg : List Int) :
    ∀ (idxs : List Nat) (out : List Int),
      stepCells t cfg idxs = Except.ok out →
      ∀ v ∈ out, ∃ i ∈ idxs, cellAt t cfg i = Except.ok v := by
  intro idxs
  induction idxs with
  | nil => intro out h v hv; cases h; cases hv
  | cons i rest ih =>
    intro out h v hv
    simp only [stepCells] at h
    cases hcell : cellAt t cfg i with
    | error e => rw [hcell] at h; cases h
    | ok w =>
      rw [hcell] at h
      cases hrest : stepCells t cfg rest with
      | error e => rw [hrest] at h; cases h
      | ok vs =>
        rw [hrest] at h
        cases h
        rcases List.mem_cons.1 hv with rfl | hv'
        · exact ⟨i, by simp, hcell⟩
        · obtain ⟨i', hi', hc⟩ := ih vs hrest v hv'
          exact ⟨i', by simp [hi'], hc⟩

/-- If every index's cell computes, the inner loop succeeds. -/
lemma stepCells_ok_of (t : List ((Int × Int) × Int)) (cfg : List Int) :
    ∀ idxs : List Nat, (∀ i ∈ idxs, ∃ v, cellAt t cfg i = Except.ok v) →
      ∃ out, stepCells t cfg idxs = Except.ok out := by
  intro idxs
  induction idxs with
  | nil => intro _; exact ⟨[], rfl⟩
  | cons i rest ih =>
    intro h
    obtain ⟨v, hv⟩ := h i (by simp)
    obtain ⟨vs, hvs⟩ := ih (fun i' hi' => h i' (by simp [hi']))
    exact ⟨v :: vs, by simp only [stepCells, hv, hvs]⟩

/-- Entry `j` of `List.range n` is `j`. -/
lemma range_getD (n j : Nat) (hj : j < n) : (List.range n).getD j 0 = j := by
  have hj' : j < (List.range n).length := by simpa using hj
  rw [List.getD_eq_getElem _ _ hj']
  simp

/-- A successful synchronous step: the output has the input's length and
position `i` holds the table lookup at the neighborhood
`(configuration[(i-1) mod L], configuration[i])` of the old configuration. -/
lemma stepConfig_ok_get (t : List ((Int × Int) × Int)) (L : Nat) (cfg ncfg : List Int)
    (hL : L = cfg.length) (h : stepConfig t L cfg = Except.ok ncfg) :
    ncfg.length = cfg.length ∧
      ∀ i, i < cfg.length →
        List.lookup (cfg.getD (((i : Int) - 1) % (cfg.length : Int)).toNat 0,
          cfg.getD i 0) t = some (ncfg.getD i 0) := by
  subst hL
  refine ⟨by simpa using stepCells_ok_length t cfg (List.range cfg.length) ncfg h, ?_⟩
  intro i hi
  have hc := stepCells_ok_get t cfg (List.range cfg.length) ncfg h i (by simpa using hi)
  rw [range_getD cfg.length i hi] at hc
  exact (cellAt_ok_iff t cfg i hi (ncfg.getD i 0)).1 hc

/-- With a table total on valid neighborhoods and a valid configuration,
the synchronous step succeeds. -/
lemma stepConfig_ok_of (t : List ((Int × Int) × Int)) (L : Nat) (cfg : List Int)
    (hL : L = cfg.length) (ht : validTable t) (hc : ∀ v ∈ cfg, validCell v) :
    ∃ ncfg, stepConfig t L cfg = Except.ok ncfg := by
  subst hL
  apply stepCells_ok_of
  intro i hi
  have hilt : i < cfg.length := by simpa using hi
  have hleft : validCell (cfg.getD (((i : Int) - 1) % (cfg.length : Int)).toNat 0) := by
    apply hc
    apply getD_mem
    have h1 : (0:Int) ≤ ((i : Int) - 1) % (cfg.length : Int) :=
      Int.emod_nonneg _ (by omega)
    have h2 : ((i : Int) - 1) % (cfg.length : Int) < (cfg.length : Int) :=
      Int.emod_lt_of_pos _ (by omega)
    omega
  have hself : validCell (cfg.getD i 0) := hc _ (getD_mem cfg i hilt)
  obtain ⟨v, hv, _⟩ := ht _ _ hleft hself
  exact ⟨v, (cellAt_ok_iff t cfg i hilt v).2 hv⟩

/-- The synchronous step preserves configuration validity. -/
lemma stepConfig_valid (t : List ((Int × Int) × Int)) (L : Nat) (cfg ncfg : List Int)
    (ht : validTable t) (hc : validCfg L cfg)
    (h : stepConfig t L cfg = Except.ok ncfg) : validCfg L ncfg := by
  obtain ⟨hlen, hcells⟩ := hc
  subst hlen
  constructor
  · rw [(stepConfig_ok_get t cfg.length cfg ncfg rfl h).1]
  · intro v hv
    obtain ⟨i, hi, hcell⟩ := stepCells_ok_mem t cfg (List.range cfg.length) ncfg h v hv
    have hilt : i < cfg.length := by simpa using hi
    have hlook := (cellAt_ok_iff t cfg i hilt v).1 hcell
    have hleft : validCell (cfg.getD (((i : Int) - 1) % (cfg.length : Int)).toNat 0) := by
      apply hcells
      apply getD_mem
      have h1 : (0:Int) ≤ ((i : Int) - 1) % (cfg.length : Int) :=
        Int.emod_nonneg _ (by omega)
      have h2 : ((i : Int) - 1) % (cfg.length : Int) < (cfg.length : Int) :=
        Int.emod_lt_of_pos _ (by omega)
      omega
    have hself : validCell (cfg.getD i 0) := hcells _ (getD_mem cfg i hilt)
    obtain ⟨v', hv', hvalid⟩ := ht _ _ hleft hself
    rw [hlook] at hv'
    cases hv'
    exact hvalid

/-- A completed (error-free) evolve loop appends exactly `n` rows; the final
current configuration is the last appended row (or the starting one when
`n = 0`). -/
lemma evolveLoop_none_spec (t : List ((Int × Int) × Int)) (L : Nat) :
    ∀ (n : Nat) (cfg : List Int) (hist : List (List Int)) (cfg' : List Int)
      (hist' : List (List Int)),
      evolveLoop t L n cfg hist = ((cfg', hist'), none) →
      ∃ tail, hist' = hist ++ tail ∧ tail.length = n ∧
        ((tail = [] ∧ cfg' = cfg) ∨ tail.getLast? = some cfg') := by
  intro n
  induction n with
  | zero =>
    intro cfg hist cfg' hist' h
    simp only [evolveLoop, Prod.mk.injEq] at h
    obtain ⟨⟨rfl, rfl⟩, _⟩ := h
    exact ⟨[], by simp, rfl, Or.inl ⟨rfl, rfl⟩⟩
  | succ n ih =>
    intro cfg hist cfg' hist' h
    simp only [evolveLoop] at h
    cases hstep : stepConfig t L cfg with
    | error e => rw [hstep] at h; simp at h
    | ok ncfg =>
      rw [hstep] at h
      obtain ⟨tail, rfl, hlen, hlast⟩ := ih ncfg (hist ++ [ncfg]) cfg' hist' h
      refine ⟨[ncfg] ++ tail, by simp, by simp [hlen], ?_⟩
      rcases hlast with ⟨rfl, rfl⟩ | hl
      · right; simp
      · right
        rw [List.getLast?_append, hl]
        rfl

/-- Any property preserved by a successful step holds for the loop's final
configuration and every history row, whether or not the loop raised. -/
lemma evolveLoop_inv (t : List ((Int × Int) × Int)) (L : Nat) (P : List Int → Prop)
    (hstep : ∀ c c', P c → stepConfig t L c = Except.ok c' → P c') :
    ∀ (n : Nat) (cfg : List Int) (hist : List (List Int)), P cfg → (∀ c ∈ hist, P c) →
      P (evolveLoop t L n cfg hist).1.1 ∧ ∀ c ∈ (evolveLoop t L n cfg hist).1.2, P c := by
  intro n
  induction n with
  | zero =>
    intro cfg hist hc hh
    exact ⟨hc, hh⟩
  | succ n ih =>
    intro cfg hist hc hh
    simp only [evolveLoop]
    cases hs : stepConfig t L cfg with
    | error e => exact ⟨hc, hh⟩
    | ok ncfg =>
      apply ih ncfg (hist ++ [ncfg]) (hstep cfg ncfg hc hs)
      intro c hcmem
      rcases List.mem_append.1 hcmem with h | h
      · exact hh c h
      · simp only [List.mem_singleton] at h
        rw [h]
        exact hstep cfg ncfg hc hs

/-- Splitting the loop: running `n1 + n2` iterations reaches the same state
as running `n1` iterations and then `n2` more from where they left off. -/
lemma evolveLoop_add (t : List ((Int × Int) × Int)) (L : Nat) :
    ∀ (n1 n2 : Nat) (cfg : List Int) (hist : List (List Int)),
      (evolveLoop t L (n1 + n2) cfg hist).1 =
        (evolveLoop t L n2 (evolveLoop t L n1 cfg hist).1.1
          (evolveLoop t L n1 cfg hist).1.2).1 := by
  intro n1
  induction n1 with
  | zero =>
    intro n2 cfg hist
    simp [evolveLoop]
  | succ n1 ih =>
    intro n2 cfg hist
    have hadd : n1 + 1 + n2 = (n1 + n2) + 1 := by omega
    rw [hadd]
    simp only [evolveLoop]
    cases hs : stepConfig t L cfg with
    | error e =>
      cases n2 with
      | zero => simp [evolveLoop]
      | succ m => simp [evolveLoop, hs]
    | ok ncfg => exact ih n2 ncfg (hist ++ [ncfg])

/-- Unfolding of `evolve` on a non-negative Python int: the validation
passes and the loop runs that many iterations. -/
lemma evolve_pint_nat (s : TriStateCA) (n : Nat) :
    s.evolve (PyVal.pint (n : Int)) =
      ({ s with
          current_configuration :=
            (evolveLoop s.lookup_table s.caLength n
              s.current_configuration s.spacetime).1.1
          spacetime :=
            (evolveLoop s.lookup_table s.caLength n
              s.current_configuration s.spacetime).1.2 },
        (evolveLoop s.lookup_table s.caLength n
          s.current_configuration s.spacetime).2) := by
  simp only [TriStateCA.evolve, pyLt0, pyToInt]
  rw [show decide ((n : Int) < 0) = false by simp]
  simp

/-- The boolean per-cell check of `__init__` agrees with `validCell`. -/
lemma validCell_iff_check (v : Int) :
    ((v == 0 || v == 1 || v == 2) = true) ↔ validCell v := by
  simp [validCell]
  tauto

/-- A configuration with an out-of-range cell makes construction fail with
the `InvalidConfiguration` error, whatever the rule number is. -/
lemma init_bad_config (r : Int) (c : List Int) (h : ∃ v ∈ c, ¬ validCell v) :
    TriStateCA.init r c = Except.error invalidConfigurationError := by
  unfold TriStateCA.init
  have hall : c.all (fun i => i == 0 || i == 1 || i == 2) = false := by
    rw [List.all_eq_false]
    obtain ⟨v, hv, hbad⟩ := h
    refine ⟨v, hv, ?_⟩
    intro hcon
    exact hbad ((validCell_iff_check v).1 hcon)
  rw [hall]
  rfl

/-- A valid configuration with an out-of-range rule number makes construction
fail with the propagated `InvalidRule` error. -/
lemma init_bad_rule (r : Int) (c : List Int) (hc : ∀ v ∈ c, validCell v)
    (hr : r < 0 ∨ 19682 < r) :
    TriStateCA.init r c = Except.error invalidRuleError := by
  unfold TriStateCA.init
  have hall : c.all (fun i => i == 0 || i == 1 || i == 2) = true := by
    rw [List.all_eq_true]
    intro v hv
    exact (validCell_iff_check v).2 (hc v hv)
  rw [hall, if_pos rfl]
  have hbt : buildLookupTable r = Except.error invalidRuleError := by
    unfold buildLookupTable lookup_table
    rw [if_pos (by omega)]
  rw [hbt]

/-- Successful construction stores the supplied configuration in every
list-valued field, records its length, and keeps the built table. -/
lemma init_ok_fields (r : Int) (c : List Int) (s : TriStateCA)
    (h : TriStateCA.init r c = Except.ok s) :
    s.initial = c ∧ s.spacetime = [c] ∧ s.current_configuration = c ∧
      s.caLength = c.length ∧ lookup_table r = Except.ok s.lookup_table ∧
      ∀ v ∈ c, validCell v := by
  unfold TriStateCA.init at h
  cases hall : c.all (fun i => i == 0 || i == 1 || i == 2) with
  | false => rw [hall] at h; cases h
  | true =>
    rw [hall, if_pos rfl] at h
    cases hbt : buildLookupTable r with
    | error e => rw [hbt] at h; cases h
    | ok t =>
      rw [hbt] at h
      cases h
      refine ⟨rfl, rfl, rfl, rfl, hbt, ?_⟩
      intro v hv
      rw [List.all_eq_true] at hall
      exact (validCell_iff_check v).1 (hall v hv)

/-- Construction succeeds on a valid configuration and an in-range rule. -/
lemma init_ok_of_valid (r : Int) (c : List Int) (hc : ∀ v ∈ c, validCell v)
    (h0 : 0 ≤ r) (h1 : r ≤ 19682) :
    ∃ s, TriStateCA.init r c = Except.ok s := by
  unfold TriStateCA.init
  have hall : c.all (fun i => i == 0 || i == 1 || i == 2) = true := by
    rw [List.all_eq_true]
    intro v hv
    exact (validCell_iff_check v).2 (hc v hv)
  rw [hall, if_pos rfl]
  have hbt := lookup_table_ok r h0 h1
  unfold buildLookupTable
  rw [hbt]
  exact ⟨_, rfl⟩

/-- A table returned by `lookup_table` always comes from an in-range rule. -/
lemma lookup_table_ok_range (r : Int) (t : List ((Int × Int) × Int))
    (h : lookup_table r = Except.ok t) : 0 ≤ r ∧ r ≤ 19682 := by
  unfold lookup_table at h
  by_cases hr : r < 0 ∨ r > 19682
  · rw [if_pos hr] at h; cases h
  · omega

/-- Every call of `evolve`, successful or not, preserves the engine
invariant. -/
lemma evolve_preserves_inv (s : TriStateCA) (v : PyVal) (h : EngineInv s) :
    EngineInv (s.evolve v).1 := by
  obtain ⟨ht, hcur, hhist⟩ := h
  cases v with
  | pstr str => exact ⟨ht, hcur, hhist⟩
  | pint n =>
    by_cases hn : n < 0
    · have : s.evolve (PyVal.pint n) = (s, some invalidStepCountError) := by
        simp only [TriStateCA.evolve, pyLt0]
        rw [show decide (n < 0) = true by simpa using hn]
      rw [this]
      exact ⟨ht, hcur, hhist⟩
    · have heq : s.evolve (PyVal.pint n) =
          ({ s with
              current_configuration :=
                (evolveLoop s.lookup_table s.caLength n.toNat
                  s.current_configuration s.spacetime).1.1
              spacetime :=
                (evolveLoop s.lookup_table s.caLength n.toNat
                  s.current_configuration s.spacetime).1.2 },
            (evolveLoop s.lookup_table s.caLength n.toNat
              s.current_configuration s.spacetime).2) := by
        simp only [TriStateCA.evolve, pyLt0, pyToInt]
        rw [show decide (n < 0) = false by simpa using hn]
      rw [heq]
      have hinv := evolveLoop_inv s.lookup_table s.caLength (validCfg s.caLength)
        (fun c c' hc hs => stepConfig_valid s.lookup_table s.caLength c c' ht hc hs)
        n.toNat s.current_configuration s.spacetime hcur hhist
      exact ⟨ht, hinv.1, hinv.2⟩

/-- A successful single-step evolve call applies exactly one synchronous
step to the old current configuration. -/
lemma evolve_one_ok_step (s : TriStateCA)
    (hok : (s.evolve (PyVal.pint 1)).2 = none) :
    stepConfig s.lookup_table s.caLength s.current_configuration =
      Except.ok (s.evolve (PyVal.pint 1)).1.current_configuration := by
  have hcast : (1 : Int) = ((1 : Nat) : Int) := by norm_num
  rw [hcast, evolve_pint_nat s 1] at hok ⊢
  rcases hE : evolveLoop s.lookup_table s.caLength 1 s.current_configuration s.spacetime
    with ⟨⟨cfg', hist'⟩, err⟩
  rw [hE] at hok
  dsimp only at hok
  subst hok
  simp only [evolveLoop] at hE
  cases hs : stepConfig s.lookup_table s.caLength s.current_configuration with
  | error e => rw [hs] at hE; simp at hE
  | ok ncfg =>
    rw [hs] at hE
    simp only [evolveLoop, Prod.mk.injEq] at hE
    obtain ⟨⟨rfl, rfl⟩, _⟩ := hE
    rfl

/-- C1: in a single evolution step the new value at each spatial index `i`
in `[0, L)` is the transition-table output for the neighborhood
`(old[(i - 1) mod L], old[i])`; in particular the neighborhood at index 0
takes `old[L - 1]` as its left element; every new value is determined by
the old configuration only (synchronous update). -/
theorem evolve_step_periodic_synchronous (s : TriStateCA)
    (hlen : s.caLength = s.current_configuration.length)
    (hok : (s.evolve (PyVal.pint 1)).2 = none) :
    (s.evolve (PyVal.pint 1)).1.current_configuration.length =
        s.current_configuration.length ∧
    (∀ i, i < s.current_configuration.length →
      List.lookup
        (s.current_configuration.getD
          (((i : Int) - 1) % (s.current_configuration.length : Int)).toNat 0,
         s.current_configuration.getD i 0) s.lookup_table =
        some ((s.evolve (PyVal.pint 1)).1.current_configuration.getD i 0)) ∧
    (1 ≤ s.current_configuration.length →
      List.lookup
        (s.current_configuration.getD (s.current_configuration.length - 1) 0,
         s.current_configuration.getD 0 0) s.lookup_table =
        some ((s.evolve (PyVal.pint 1)).1.current_configuration.getD 0 0)) := by
  have hs := evolve_one_ok_step s hok
  have hmain := stepConfig_ok_get s.lookup_table s.caLength s.current_configuration
    (s.evolve (PyVal.pint 1)).1.current_configuration hlen hs
  refine ⟨hmain.1, hmain.2, ?_⟩
  intro hL
  have h0 := hmain.2 0 (by omega)
  have hmod : (((0 : Nat) : Int) - 1) % (s.current_configuration.length : Int) =
      (s.current_configuration.length : Int) - 1 := by
    rw [show ((0 : Nat) : Int) - 1 = (-1 : Int) by norm_num]
    exact neg_one_emod s.current_configuration.length hL
  rw [hmod] at h0
  have htn : ((s.current_configuration.length : Int) - 1).toNat =
      s.current_configuration.length - 1 := by omega
  rw [htn] at h0
  exact h0

/-- Witness for C1 at a concrete engine: rule 0 on the one-cell
configuration `[1]`. -/
theorem evolve_step_periodic_synchronous_witness :
    demoEngine.caLength = demoEngine.current_configuration.length ∧
    (demoEngine.evolve (PyVal.pint 1)).2 = none ∧
    ((demoEngine.evolve (PyVal.pint 1)).1.current_configuration.length =
        demoEngine.current_configuration.length ∧
    (∀ i, i < demoEngine.current_configuration.length →
      List.lookup
        (demoEngine.current_configuration.getD
          (((i : Int) - 1) % (demoEngine.current_configuration.length : Int)).toNat 0,
         demoEngine.current_configuration.getD i 0) demoEngine.lookup_table =
        some ((demoEngine.evolve (PyVal.pint 1)).1.current_configuration.getD i 0)) ∧
    (1 ≤ demoEngine.current_configuration.length →
      List.lookup
        (demoEngine.current_configuration.getD
          (demoEngine.current_configuration.length - 1) 0,
         demoEngine.current_configuration.getD 0 0) demoEngine.lookup_table =
        some ((demoEngine.evolve (PyVal.pint 1)).1.current_configuration.getD 0 0))) :=
  ⟨by decide, by decide, evolve_step_periodic_synchronous demoEngine (by decide) (by decide)⟩

/-- C2: for every rule index in [0, 19682] the table builder succeeds with a
9-entry table whose `i`-th entry maps the `i`-th canonical neighborhood to
the `i`-th most-significant digit of the rule index written in base 3 and
left-padded with zeros to 9 digits; rule 0 maps every neighborhood to 0 and
rule 19682 maps every neighborhood to 2. -/
theorem lookup_table_base3_digits (r : Int) (h0 : 0 ≤ r) (h1 : r ≤ 19682) :
    ∃ t, lookup_table r = Except.ok t ∧ t.length = 9 ∧
      (∀ i, i < 9 → t.get? i = some (neighborhoods.getD i (0, 0),
        Int.ofNat (r.toNat / 3 ^ (8 - i) % 3))) ∧
      (r = 0 → ∀ p ∈ t, p.2 = 0) ∧
      (r = 19682 → ∀ p ∈ t, p.2 = 2) := by
  refine ⟨_, lookup_table_ok r h0 h1, ?_, ?_, ?_, ?_⟩
  · exact lookup_table_length r h0 h1 _ (lookup_table_ok r h0 h1)
  · intro i hi
    exact lookup_table_entry r h0 h1 i hi _ (lookup_table_ok r h0 h1)
  · rintro rfl p hp
    obtain ⟨i, hip⟩ := List.mem_iff_get?.1 hp
    have hilt : i < 9 := by
      have := (List.get?_eq_some.1 hip).1
      rwa [lookup_table_length 0 h0 h1 _ (lookup_table_ok 0 h0 h1)] at this
    rw [lookup_table_entry 0 h0 h1 i hilt _ (lookup_table_ok 0 h0 h1)] at hip
    cases hip
    simp
  · rintro rfl p hp
    obtain ⟨i, hip⟩ := List.mem_iff_get?.1 hp
    have hilt : i < 9 := by
      have := (List.get?_eq_some.1 hip).1
      rwa [lookup_table_length 19682 h0 h1 _ (lookup_table_ok 19682 h0 h1)] at this
    rw [lookup_table_entry 19682 h0 h1 i hilt _ (lookup_table_ok 19682 h0 h1)] at hip
    cases hip
    have h2 : (19682 : Int).toNat = 19682 := rfl
    rw [h2]
    interval_cases i <;> norm_num

/-- Witness for C2 at the concrete rule index 5 (base-3 digits
`000000012`). -/
theorem lookup_table_base3_digits_witness :
    (0 : Int) ≤ 5 ∧ (5 : Int) ≤ 19682 ∧
    ∃ t, lookup_table 5 = Except.ok t ∧ t.length = 9 ∧
      (∀ i, i < 9 → t.get? i = some (neighborhoods.getD i (0, 0),
        Int.ofNat ((5 : Int).toNat / 3 ^ (8 - i) % 3))) ∧
      ((5 : Int) = 0 → ∀ p ∈ t, p.2 = 0) ∧
      ((5 : Int) = 19682 → ∀ p ∈ t, p.2 = 2) :=
  ⟨by norm_num, by norm_num,
    lookup_table_base3_digits 5 (by norm_num) (by norm_num)⟩

/-- C3: a successful `evolve(steps)` call grows the history by exactly
`steps` rows, leaves the current configuration equal to the history's last
row, and changes neither the stored initial configuration nor any history
row that existed before the call.  The hypothesis that the current
configuration is the history's last row holds for every engine the public
interface can produce (construction establishes it and this theorem
re-establishes it). -/
theorem evolve_appends_steps_history (s : TriStateCA) (n : Nat)
    (hlast : s.spacetime.getLast? = some s.current_configuration)
    (hok : (s.evolve (PyVal.pint (n : Int))).2 = none) :
    (s.evolve (PyVal.pint (n : Int))).1.spacetime.length = s.spacetime.length + n ∧
    (s.evolve (PyVal.pint (n : Int))).1.spacetime.getLast? =
      some (s.evolve (PyVal.pint (n : Int))).1.current_configuration ∧
    (s.evolve (PyVal.pint (n : Int))).1.initial = s.initial ∧
    (s.evolve (PyVal.pint (n : Int))).1.spacetime.take s.spacetime.length =
      s.spacetime := by
  rw [evolve_pint_nat s n] at hok ⊢
  rcases hE : evolveLoop s.lookup_table s.caLength n s.current_configuration s.spacetime
    with ⟨⟨cfg', hist'⟩, err⟩
  rw [hE] at hok
  dsimp only at hok ⊢
  subst hok
  obtain ⟨tail, rfl, hlen, htl⟩ :=
    evolveLoop_none_spec s.lookup_table s.caLength n s.current_configuration s.spacetime
      cfg' hist' hE
  refine ⟨by simp [hlen], ?_, rfl, List.take_left s.spacetime tail⟩
  rcases htl with ⟨rfl, rfl⟩ | hl
  · simpa using hlast
  · rw [List.getLast?_append, hl]
    rfl

/-- Witness for C3 at a concrete engine and step count 2. -/
theorem evolve_appends_steps_history_witness :
    demoEngine.spacetime.getLast? = some demoEngine.current_configuration ∧
    (demoEngine.evolve (PyVal.pint 2)).2 = none ∧
    ((demoEngine.evolve (PyVal.pint 2)).1.spacetime.length =
        demoEngine.spacetime.length + 2 ∧
      (demoEngine.evolve (PyVal.pint 2)).1.spacetime.getLast? =
        some (demoEngine.evolve (PyVal.pint 2)).1.current_configuration ∧
      (demoEngine.evolve (PyVal.pint 2)).1.initial = demoEngine.initial ∧
      (demoEngine.evolve (PyVal.pint 2)).1.spacetime.take
          demoEngine.spacetime.length = demoEngine.spacetime) :=
  ⟨by decide, by decide, evolve_appends_steps_history demoEngine 2 (by decide) (by decide)⟩

/-- C7: evolving `n1` steps and then `n2` steps yields the same history and
current configuration as a single `n1 + n2`-step call, and `evolve(0)` is a
legal no-op returning the engine unchanged with no error. -/
theorem evolve_additive_composition (s : TriStateCA) (n1 n2 : Nat) :
    ((s.evolve (PyVal.pint (n1 : Int))).1.evolve (PyVal.pint (n2 : Int))).1.spacetime =
      (s.evolve (PyVal.pint ((n1 + n2 : Nat) : Int))).1.spacetime ∧
    ((s.evolve (PyVal.pint (n1 : Int))).1.evolve
        (PyVal.pint (n2 : Int))).1.current_configuration =
      (s.evolve (PyVal.pint ((n1 + n2 : Nat) : Int))).1.current_configuration ∧
    s.evolve (PyVal.pint 0) = (s, none) := by
  have h1 := evolve_pint_nat s n1
  have h12 := evolve_pint_nat s (n1 + n2)
  have h2 := evolve_pint_nat (s.evolve (PyVal.pint (n1 : Int))).1 n2
  rw [h1] at h2
  dsimp only at h2
  rw [h1, h2, h12]
  dsimp only
  have hadd := evolveLoop_add s.lookup_table s.caLength n1 n2
    s.current_configuration s.spacetime
  refine ⟨?_, ?_, ?_⟩
  · rw [hadd]
  · rw [hadd]
  · have h0 := evolve_pint_nat s 0
    rw [show ((0 : Nat) : Int) = (0 : Int) by norm_num] at h0
    rw [h0]
    rfl

/-- C4 (code bug): passing a step count that cannot be coerced to an int,
such as the string `"abc"`, makes `evolve` raise `TypeError` — an unrelated
error type — instead of the `InvalidStepCount` error the design requires,
because the source evaluates `time_steps < 0` before the `try` block and
its `except` clause only catches `ValueError`.  The engine state is
nevertheless left unchanged. -/
theorem evolve_str_raises_typeErrorKind (s : TriStateCA) :
    s.evolve (PyVal.pstr "abc") =
      (s, some (PyError.typeError "comparison not supported between str and int")) ∧
    PyError.typeError "comparison not supported between str and int" ≠
      invalidStepCountError := by
  exact ⟨rfl, by decide⟩

/-- C5: construction fails with the `InvalidConfiguration` error exactly
when some supplied cell is outside {0,1,2}, fails with the propagated
`InvalidRule` error when the configuration is fine but the rule index is
out of range, succeeds otherwise, and in particular rejects `[0,1,3]` with
`InvalidConfiguration` and rule 19683 with `InvalidRule`. -/
theorem init_validation_errors (r : Int) (c : List Int) :
    ((∃ v ∈ c, ¬ validCell v) →
      TriStateCA.init r c = Except.error invalidConfigurationError) ∧
    ((∀ v ∈ c, validCell v) → (r < 0 ∨ 19682 < r) →
      TriStateCA.init r c = Except.error invalidRuleError) ∧
    ((∀ v ∈ c, validCell v) → 0 ≤ r → r ≤ 19682 →
      ∃ s, TriStateCA.init r c = Except.ok s) ∧
    TriStateCA.init 0 [0, 1, 3] = Except.error invalidConfigurationError ∧
    TriStateCA.init 19683 [0, 1, 2] = Except.error invalidRuleError := by
  refine ⟨init_bad_config r c, init_bad_rule r c, init_ok_of_valid r c, ?_, ?_⟩
  · exact init_bad_config 0 [0, 1, 3] ⟨3, by decide, by decide⟩
  · exact init_bad_rule 19683 [0, 1, 2] (by decide) (by norm_num)

/-- Witness for C5 at the concrete inputs of the claim. -/
theorem init_validation_errors_witness :
    ((3 : Int) ∈ [(0 : Int), 1, 3] ∧ ¬ validCell 3) ∧
    TriStateCA.init 19683 [0, 1, 3] = Except.error invalidConfigurationError :=
  ⟨⟨by decide, by decide⟩,
    (init_validation_errors 19683 [0, 1, 3]).1 ⟨3, by decide, by decide⟩⟩

/-- C6 counterexample: the history entry stored by the constructor is not a
copy.  In the reference model, construction over the one-object heap
`[[0,1,2]]` with the caller's list at reference 0 stores reference 0 itself
as the single history entry (the fresh copy is the distinct reference 1,
used for the current configuration), so mutating the caller's list in place
is visible through the history entry. -/
theorem initStores_history_is_caller_reference :
    (initStores [[0, 1, 2]] 0).2.spacetimeRefs = [0] ∧
    (initStores [[0, 1, 2]] 0).2.currentRef = 1 ∧
    (initStores [[0, 1, 2]] 0).2.currentRef ≠
      (initStores [[0, 1, 2]] 0).2.spacetimeRefs.getD 0 0 ∧
    ((initStores [[0, 1, 2]] 0).1.set 0 [9, 9, 9]).getD
      ((initStores [[0, 1, 2]] 0).2.spacetimeRefs.getD 0 0) [] = [9, 9, 9] := by
  refine ⟨rfl, rfl, by decide, by decide⟩

/-- C6 (amended): after a successful construction the history is the
one-element sequence `[C]` and the current configuration equals `C`; but
the history entry is the caller's sequence itself (the constructor stores
`initial_condition`, not a copy, in `spacetime`), while the separate
current-configuration buffer is the fresh copy. -/
theorem init_history_single_entry (r : Int) (c : List Int) (s : TriStateCA)
    (h : TriStateCA.init r c = Except.ok s) :
    s.spacetime = [c] ∧ s.current_configuration = c ∧
    ∀ (heap : List (List Int)) (ref : Nat),
      (initStores heap ref).2.spacetimeRefs = [ref] ∧
      (initStores heap ref).2.currentRef = heap.length := by
  obtain ⟨_, hsp, hcur, _, _, _⟩ := init_ok_fields r c s h
  exact ⟨hsp, hcur, fun heap ref => ⟨rfl, rfl⟩⟩

/-- Witness for the amended C6 at rule 0 and configuration `[1]`. -/
theorem init_history_single_entry_witness :
    TriStateCA.init 0 [1] = Except.ok demoEngine ∧
    (demoEngine.spacetime = [[1]] ∧ demoEngine.current_configuration = [1] ∧
      ∀ (heap : List (List Int)) (ref : Nat),
        (initStores heap ref).2.spacetimeRefs = [ref] ∧
        (initStores heap ref).2.currentRef = heap.length) := by
  have hinit : TriStateCA.init 0 [1] = Except.ok demoEngine := by
    simp [TriStateCA.init, buildLookupTable, lookup_table, rule_in_base,
      rule_in_base_digits.eq_def, neighborhoods, demoEngine]
  exact ⟨hinit, init_history_single_entry 0 [1] demoEngine hinit⟩

/-- Every reachable engine satisfies the internal invariant. -/
lemma reachable_inv (s : TriStateCA) (h : Reachable s) : EngineInv s := by
  induction h with
  | init r c s hinit =>
    obtain ⟨_, hsp, hcur, hlen, hlt, hcells⟩ := init_ok_fields r c s hinit
    have hrange := lookup_table_ok_range r s.lookup_table hlt
    have hvt := lookup_table_valid r hrange.1 hrange.2 s.lookup_table hlt
    refine ⟨hvt, ⟨by rw [hcur, hlen], ?_⟩, ?_⟩
    · intro v hv
      exact hcells v (by rwa [hcur] at hv)
    · intro cc hcc
      rw [hsp, List.mem_singleton] at hcc
      subst hcc
      exact ⟨by rw [hlen], hcells⟩
  | evolve s v _ _ ih => exact evolve_preserves_inv s v ih

/-- C8: every engine reachable by a valid construction followed by
successful evolve calls keeps every history row and the current
configuration at the construction-time length, with every cell in
{0, 1, 2}. -/
theorem reachable_configurations_valid (s : TriStateCA) (h : Reachable s) :
    (∀ c ∈ s.spacetime, c.length = s.caLength ∧
      ∀ v ∈ c, v = 0 ∨ v = 1 ∨ v = 2) ∧
    s.current_configuration.length = s.caLength ∧
    (∀ v ∈ s.current_configuration, v = 0 ∨ v = 1 ∨ v = 2) := by
  obtain ⟨_, hcur, hsp⟩ := reachable_inv s h
  refine ⟨?_, hcur.1, hcur.2⟩
  intro c hc
  exact ⟨(hsp c hc).1, (hsp c hc).2⟩

/-- Witness for C8 at a concrete reachable engine. -/
theorem reachable_configurations_valid_witness :
    TriStateCA.init 0 [1] = Except.ok demoEngine ∧
    ((∀ c ∈ demoEngine.spacetime, c.length = demoEngine.caLength ∧
        ∀ v ∈ c, v = 0 ∨ v = 1 ∨ v = 2) ∧
      demoEngine.current_configuration.length = demoEngine.caLength ∧
      (∀ v ∈ demoEngine.current_configuration, v = 0 ∨ v = 1 ∨ v = 2)) := by
  have hinit : TriStateCA.init 0 [1] = Except.ok demoEngine := by
    simp [TriStateCA.init, buildLookupTable, lookup_table, rule_in_base,
      rule_in_base_digits.eq_def, neighborhoods, demoEngine]
  exact ⟨hinit, reachable_configurations_valid demoEngine
    (Reachable.init 0 [1] demoEngine hinit)⟩

/-- C9: the engine is deterministic — two engines constructed from the same
rule index and initial configuration and evolved by the same step count
have identical histories, current configurations, and outcomes. -/
theorem engine_deterministic (r : Int) (c : List Int) (n : Nat)
    (s1 s2 : TriStateCA)
    (h1 : TriStateCA.init r c = Except.ok s1)
    (h2 : TriStateCA.init r c = Except.ok s2) :
    (s1.evolve (PyVal.pint (n : Int))).1.spacetime =
      (s2.evolve (PyVal.pint (n : Int))).1.spacetime ∧
    (s1.evolve (PyVal.pint (n : Int))).1.current_configuration =
      (s2.evolve (PyVal.pint (n : Int))).1.current_configuration ∧
    (s1.evolve (PyVal.pint (n : Int))).2 = (s2.evolve (PyVal.pint (n : Int))).2 := by
  rw [h1] at h2
  cases h2
  exact ⟨rfl, rfl, rfl⟩

/-- Witness for C9 at rule 0, configuration `[1]`, one step. -/
theorem engine_deterministic_witness :
    TriStateCA.init 0 [1] = Except.ok demoEngine ∧
    ((demoEngine.evolve (PyVal.pint 1)).1.spacetime =
        (demoEngine.evolve (PyVal.pint 1)).1.spacetime ∧
      (demoEngine.evolve (PyVal.pint 1)).1.current_configuration =
        (demoEngine.evolve (PyVal.pint 1)).1.current_configuration ∧
      (demoEngine.evolve (PyVal.pint 1)).2 = (demoEngine.evolve (PyVal.pint 1)).2) := by
  have hinit : TriStateCA.init 0 [1] = Except.ok demoEngine := by
    simp [TriStateCA.init, buildLookupTable, lookup_table, rule_in_base,
      rule_in_base_digits.eq_def, neighborhoods, demoEngine]
  exact ⟨hinit, engine_deterministic 0 [1] 1 demoEngine demoEngine hinit hinit⟩

/-- C10 (implicit): the constructor checks the configuration before it
builds the rule table, so when both inputs are invalid the reported error
is `InvalidConfiguration`, not `InvalidRule`. -/
theorem init_checks_configuration_before_rule (r : Int) (c : List Int)
    (hbad : ∃ v ∈ c, ¬ validCell v) (hrule : r < 0 ∨ 19682 < r) :
    TriStateCA.init r c = Except.error invalidConfigurationError :=
  init_bad_config r c hbad

/-- Witness for C10: rule 20000 (out of range) with configuration `[5]`
(out of range) reports `InvalidConfiguration`. -/
theorem init_checks_configuration_before_rule_witness :
    ((5 : Int) ∈ [(5 : Int)] ∧ ¬ validCell 5) ∧ ((20000 : Int) > 19682) ∧
    TriStateCA.init 20000 [5] = Except.error invalidConfigurationError :=
  ⟨⟨by decide, by decide⟩, by norm_num,
    init_checks_configuration_before_rule 20000 [5] ⟨5, by decide, by decide⟩
      (Or.inr (by norm_num))⟩
